import Mathlib

/-!
Verification of the Web_Extractor extraction engine (src/extractor.py,
src/main.py) against its natural-language specification.

The Python code is shallowly embedded:
* Python strings are `String`/`List Char`; `str.strip` is `pyStripL`,
  `str.lower` is `lowerL` (the case folding the claims exercise is ASCII).
* The two module-level regular expressions `CURRENCY_RE` and `NUMBER_RE`
  (src/extractor.py lines 19-20) are embedded as executable leftmost-match
  searchers (`CURRENCY_RE_search`, `NUMBER_RE_search`) that reproduce the
  greedy/backtracking semantics of Python `re` on these two fixed patterns.
  The pattern source bytes are reproduced exactly: the second and third
  alternatives of the symbol group are the literal character sequences
  "â‚¬" and "Â£" (a double-encoded Euro and Pound sign), and the character
  class `[\d{1,3},]` really is the set {digit, brace, comma}.
* The parsed document (BeautifulSoup tree) is the inductive `Forest`
  (first-child / next-sibling encoding, so every traversal is structural
  recursion and evaluates in the kernel); `get_text(" ", strip=True)`,
  `.text`, `find`, `find_all` are modelled on it.
* CSS selector evaluation (`soup.select_one`, an external library call) is
  an abstract parameter `String → SelOutcome`; `SelOutcome.err` models the
  selector engine raising, which `apply_selectors` catches per field.
* Python dicts are association lists; `dict.get` is `dget` (absent key and
  stored `None` both give `none`, like Python's `.get` default).
* `float()` applied to a match of `NUMBER_RE` with commas removed is
  `pyFloat` over `Rat` (it fails exactly when a brace got into the match).
* The wall clock is an explicit `now : String` argument; the code appends
  "Z" to `datetime.utcnow().isoformat()`.
* HTTP transport is an abstract `net : Nat → HttpResult` giving the outcome
  of the n-th GET issued by one `fetch_html` call; `fetch_html` records the
  number of attempts and the sleeps it performs (the source performs a
  single `requests.get` and never sleeps).
-/

/-! ## String utilities (Python str operations) -/

/-- Python `str.strip()` on a character list: whitespace removed from both
ends. -/
def pyStripL (l : List Char) : List Char :=
  ((l.dropWhile Char.isWhitespace).reverse.dropWhile Char.isWhitespace).reverse

/-- Python `str.strip()` on `String`. -/
def pyStrip (s : String) : String := String.mk (pyStripL s.toList)

/-- Leftmost index at which `p` occurs in the haystack, Python `str.find`
(restricted to found/not-found; `-1` becomes `none`). -/
def strFindIdx (p : List Char) : List Char → Option Nat
  | [] => if p = [] then some 0 else none
  | c :: t => if p <+: (c :: t) then some 0 else (strFindIdx p t).map (· + 1)

/-- Python `pat in hay` substring test. -/
def strContains (hay pat : List Char) : Bool := (strFindIdx pat hay).isSome

/-- Python `str.lower()` over a character list (the keyword and phrase
comparisons the code performs are ASCII). -/
def lowerL (l : List Char) : List Char := l.map Char.toLower

/-- Word splitter: Python `str.split()` with no argument (used by
BeautifulSoup to tokenise multi-valued `class` attributes). -/
def wordsAux : List Char → List Char → List (List Char)
  | [], acc => if acc = [] then [] else [acc.reverse]
  | c :: t, acc =>
    if c.isWhitespace then
      (if acc = [] then wordsAux t [] else acc.reverse :: wordsAux t [])
    else wordsAux t (c :: acc)

/-- `str.split()` over a character list. -/
def splitWsL (l : List Char) : List (List Char) := wordsAux l []

/-- Python `" ".join(...)` over character lists. -/
def joinSp : List (List Char) → List Char
  | [] => []
  | [w] => w
  | w :: ws => w ++ ' ' :: joinSp ws

/-- Association-list lookup, first match: Python dict access (dict keys are
unique, so first match is the only match). -/
def alookup {β : Type} (k : String) : List (String × β) → Option β
  | [] => none
  | (k', v) :: t => if k' = k then some v else alookup k t

/-- Python `dict.get(k)` on a dict whose stored values may themselves be
`None`: an absent key and a stored `None` both give `none`. -/
def dget (d : List (String × Option String)) (k : String) : Option String :=
  (alookup k d).join

/-- Python `dict[k] = v`: update in place if the key exists, append
otherwise. -/
def dset {β : Type} (k : String) (v : β) : List (String × β) → List (String × β)
  | [] => [(k, v)]
  | (k', v') :: t => if k' = k then (k, v) :: t else (k', v') :: dset k v t

/-- Python truthiness of an optional string: `None` and `""` are falsy. -/
def optTruthy : Option String → Bool
  | none => false
  | some s => !(s == "")

/-- First element of the list on which `f` succeeds (Python loop with
early `return`). -/
def firstSomeL {α β : Type} (f : α → Option β) : List α → Option β
  | [] => none
  | x :: t =>
    match f x with
    | some b => some b
    | none => firstSomeL f t

/-! ## The two module-level regular expressions (src/extractor.py 19-20)

`CURRENCY_RE = re.compile(r'(\$|â‚¬|Â£|₹)\s?[\d{1,3},]*\d+(\.\d+)?')`
`NUMBER_RE   = re.compile(r'[\d{1,3},]*\d+(\.\d+)?')`

The file's bytes for the second and third symbol alternatives decode to the
three-character sequence `â`,`‚`,`¬` and the two-character sequence `Â`,`£`
(mojibake of the Euro and Pound signs). `[\d{1,3},]` is a character class
containing the digits, the two braces and the comma. -/

/-- Membership in the character class `[\d{1,3},]`. -/
def cChar (c : Char) : Bool := c.isDigit || c == '{' || c == '}' || c == ','

/-- Index of the last decimal digit in a list, if any. -/
def lastDigitIdx : List Char → Option Nat
  | [] => none
  | c :: t =>
    match lastDigitIdx t with
    | some j => some (j + 1)
    | none => if c.isDigit then some 0 else none

/-- Anchored match of `[\d{1,3},]*\d+(\.\d+)?` at the head of `u`, with
Python `re` greedy/backtracking semantics; returns group 0.  The greedy
star backtracks until the next character is a digit, so the `star ⬝ \d+`
part consumes the maximal class-character run truncated at its last digit;
a fractional part can then only follow at the end of that run. -/
def numTailMatch (u : List Char) : Option (List Char) :=
  match lastDigitIdx (u.takeWhile cChar) with
  | none => none
  | some k =>
    match u.drop (k + 1) with
    | '.' :: r2 =>
      let ds := r2.takeWhile Char.isDigit
      if ds = [] then some (u.take (k + 1)) else some (u.take (k + 1) ++ '.' :: ds)
    | _ => some (u.take (k + 1))

/-- The symbol alternation `(\$|â‚¬|Â£|₹)` at the head of `u`; the
four alternatives begin with distinct characters, so at most one applies.
Returns (group 1, remainder). -/
def matchSymbol (u : List Char) : Option (List Char × List Char) :=
  if ['$'] <+: u then some (['$'], u.drop 1)
  else if ['â', '‚', '¬'] <+: u then some (['â', '‚', '¬'], u.drop 3)
  else if ['Â', '£'] <+: u then some (['Â', '£'], u.drop 2)
  else if ['₹'] <+: u then some (['₹'], u.drop 1)
  else none

/-- The `\s?` step: consume one leading whitespace character if present
(consumed part, remainder). -/
def wsSplit : List Char → List Char × List Char
  | [] => ([], [])
  | c :: r => if c.isWhitespace then ([c], r) else ([], c :: r)

/-- Anchored match of the full `CURRENCY_RE` pattern at the head of `u`:
symbol, optional single whitespace, then the numeric tail.  (If the
whitespace is consumed and the tail fails, the zero-width branch of `\s?`
also fails, since the tail then starts at a whitespace character; so no
backtracking is needed.)  Returns (group 1, group 0). -/
def currMatchAt (u : List Char) : Option (List Char × List Char) :=
  match matchSymbol u with
  | none => none
  | some sr =>
    match numTailMatch (wsSplit sr.2).2 with
    | none => none
    | some tail => some (sr.1, sr.1 ++ (wsSplit sr.2).1 ++ tail)

/-- Leftmost-match scan: try the anchored matcher at index 0, 1, …; return
the first hit together with its index (Python `re.search`). -/
def searchIdx {α : Type} (f : List Char → Option α) : List Char → Option (Nat × α)
  | [] => (f []).map (fun a => (0, a))
  | c :: t =>
    match f (c :: t) with
    | some a => some (0, a)
    | none => (searchIdx f t).map (fun r => (r.1 + 1, r.2))

/-- `CURRENCY_RE.search`: (start index, group 1, group 0). -/
def CURRENCY_RE_search (s : List Char) : Option (Nat × List Char × List Char) :=
  searchIdx currMatchAt s

/-- `NUMBER_RE.search`: (start index, group 0). -/
def NUMBER_RE_search (s : List Char) : Option (Nat × List Char) :=
  searchIdx numTailMatch s

/-- Python `.replace(",", "")`. -/
def stripCommas (l : List Char) : List Char := l.filter (fun c => !(c == ','))

/-- Decimal digit string to `Nat`. -/
def digitsToNat (l : List Char) : Nat := l.foldl (fun n c => n * 10 + (c.toNat - 48)) 0

/-- Python `float(s)` restricted to the strings reachable from
`NUMBER_RE.group(0).replace(",", "")`: those are over digits, braces and at
most one dot, and `float` succeeds exactly on `digits+ (. digits+)?`
(a brace in the match raises `ValueError`, which the source catches). -/
def pyFloat (l : List Char) : Option Rat :=
  let ip := l.takeWhile Char.isDigit
  if ip = [] then none
  else
    match l.drop ip.length with
    | [] => some (digitsToNat ip)
    | '.' :: fp =>
      if fp ≠ [] ∧ fp.all Char.isDigit then
        some ((digitsToNat ip : Rat) + (digitsToNat fp : Rat) / ((10 : Rat) ^ fp.length))
      else none
    | _ => none

/-! ## The parsed document (BeautifulSoup tree)

First-child / next-sibling encoding: a `Forest` is a sibling list; an
element node carries its tag name, its attribute list (as parsed, one
string value per attribute) and its child forest.  Traversals visit
elements in document (pre-)order, as BeautifulSoup's `find`/`find_all`
do. -/

inductive Forest where
  | nil : Forest
  | textN (s : String) (rest : Forest) : Forest
  | elemN (tag : String) (attrs : List (String × String)) (children : Forest)
      (rest : Forest) : Forest
deriving DecidableEq

/-- All text-node strings of a forest, in document order. -/
def stringsOf : Forest → List String
  | .nil => []
  | .textN s r => s :: stringsOf r
  | .elemN _ _ c r => stringsOf c ++ stringsOf r

/-- BeautifulSoup `.text` (concatenation of descendant strings). -/
def textOf (f : Forest) : String := String.join (stringsOf f)

/-- BeautifulSoup `get_text(" ", strip=True)`: each descendant string
stripped, empties dropped, the rest joined by single spaces. -/
def get_text_strip (f : Forest) : String :=
  String.mk (joinSp (((stringsOf f).map (fun s => pyStripL s.toList)).filter
    (fun l => !l.isEmpty)))

/-- BeautifulSoup `find`: first element in document order satisfying the
predicate; returns (tag, attrs, children). -/
def findFirstF (p : String → List (String × String) → Bool) :
    Forest → Option (String × List (String × String) × Forest)
  | .nil => none
  | .textN _ r => findFirstF p r
  | .elemN t a c r =>
    if p t a then some (t, a, c)
    else
      match findFirstF p c with
      | some x => some x
      | none => findFirstF p r

/-- BeautifulSoup `find_all`: all elements in document order satisfying the
predicate. -/
def findAllF (p : String → List (String × String) → Bool) :
    Forest → List (String × List (String × String) × Forest)
  | .nil => []
  | .textN _ r => findAllF p r
  | .elemN t a c r =>
    (if p t a then [(t, a, c)] else []) ++ findAllF p c ++ findAllF p r

/-- `" ".join(tag.get("class"))`: BeautifulSoup splits the `class`
attribute on whitespace into tokens; the source re-joins them with single
spaces. -/
def classStr (attrs : List (String × String)) : String :=
  String.mk (joinSp (splitWsL ((alookup "class" attrs).getD "").toList))

/-! ## Heuristic inference (src/extractor.py 58-109) -/

/-- `soup.find("meta", property="og:title")`. -/
def ogTitleTag (soup : Forest) : Option (String × List (String × String) × Forest) :=
  findFirstF (fun t a => t == "meta" && alookup "property" a == some "og:title") soup

/-- `soup.find("meta", attrs={"name": "twitter:title"})`. -/
def twTitleTag (soup : Forest) : Option (String × List (String × String) × Forest) :=
  findFirstF (fun t a => t == "meta" && alookup "name" a == some "twitter:title") soup

/-- The `content` attribute of the og:title meta tag, as stored. -/
def ogTitleContent (soup : Forest) : Option String :=
  match ogTitleTag soup with
  | some e => alookup "content" e.2.1
  | none => none

/-- Body of the meta-tag loop in `infer_title`:
`if tag and tag.get("content"): return tag["content"].strip()`.
The guard tests truthiness of the raw content (so a whitespace-only
content passes the guard and the returned value is its strip, possibly
the empty string). -/
def metaContent (e : Option (String × List (String × String) × Forest)) : Option String :=
  match e with
  | some x =>
    match alookup "content" x.2.1 with
    | some c => if c = "" then none else some (pyStrip c)
    | none => none
  | none => none

/-- The `h1`/`h2`/`h3` fallback loop at the end of `infer_title`. -/
def h123Search (soup : Forest) : Option String :=
  firstSomeL (fun tn =>
      match findFirstF (fun t _ => t == tn) soup with
      | some e => if pyStrip (textOf e.2.2) = "" then none else some (pyStrip (textOf e.2.2))
      | none => none)
    ["h1", "h2", "h3"]

/-- `infer_title` (src/extractor.py 58-73): og:title meta, twitter:title
meta, `<title>` text, then first non-empty `h1`/`h2`/`h3`. -/
def infer_title (soup : Forest) : Option String :=
  match metaContent (ogTitleTag soup) with
  | some r => some r
  | none =>
    match metaContent (twTitleTag soup) with
    | some r => some r
    | none =>
      match findFirstF (fun t _ => t == "title") soup with
      | some ti =>
        if pyStrip (textOf ti.2.2) = "" then h123Search soup
        else some (pyStrip (textOf ti.2.2))
      | none => h123Search soup

/-- The keyword list of `has_price_keyword` (src/extractor.py 78). -/
def priceKeywords : List String := ["price", "amount", "cost", "sale", "our-price"]

/-- `has_price_keyword(s)`: any keyword is a substring of `s.lower()`. -/
def has_price_keyword (s : String) : Bool :=
  priceKeywords.any (fun k => strContains (lowerL s.toList) k.toList)

/-- First pass of `infer_price`: elements carrying a `class` attribute, in
document order; on a keyword hit, return `CURRENCY_RE.search(text).group(0)`
if the element's visible text has a currency match. -/
def scanClassPass (soup : Forest) : Option String :=
  firstSomeL (fun e =>
      if has_price_keyword (classStr e.2.1) then
        (CURRENCY_RE_search (get_text_strip e.2.2).toList).map (fun r => String.mk r.2.2)
      else none)
    (findAllF (fun _ a => (alookup "class" a).isSome) soup)

/-- Second pass of `infer_price`: same scan over `id` attributes. -/
def scanIdPass (soup : Forest) : Option String :=
  firstSomeL (fun e =>
      if has_price_keyword ((alookup "id" e.2.1).getD "") then
        (CURRENCY_RE_search (get_text_strip e.2.2).toList).map (fun r => String.mk r.2.2)
      else none)
    (findAllF (fun _ a => (alookup "id" a).isSome) soup)

/-- `infer_price` (src/extractor.py 76-100): class scan, id scan, then a
currency-pattern search over the whole document's visible text. -/
def infer_price (soup : Forest) : Option String :=
  match scanClassPass soup with
  | some r => some r
  | none =>
    match scanIdPass soup with
    | some r => some r
    | none => (CURRENCY_RE_search (get_text_strip soup).toList).map (fun r => String.mk r.2.2)

/-- The lower-cased whole-document text scanned by `infer_availability`. -/
def docTextLower (soup : Forest) : String := String.mk (lowerL (get_text_strip soup).toList)

/-- The fixed phrase list of `infer_availability` (src/extractor.py 105). -/
def availPhrases : List String := ["in stock", "out of stock", "available", "pre-order", "preorder"]

/-- One iteration of the `infer_availability` loop:
`text[max(0, idx - 30) : idx + 50].strip()` on a hit (`Nat` subtraction
performs the `max(0, ·)` clamping, `take` the end clamping). -/
def availWindow (text p : List Char) : Option (List Char) :=
  match strFindIdx p text with
  | some i => some (pyStripL ((text.drop (i - 30)).take (i + 50 - (i - 30))))
  | none => none

/-- The phrase loop of `infer_availability`, also reporting which phrase
hit. -/
def availHitGo (text : List Char) : List String → Option (String × String)
  | [] => none
  | q :: qs =>
    match availWindow text q.toList with
    | some wl => some (q, String.mk wl)
    | none => availHitGo text qs

/-- `infer_availability` instrumented with the matched phrase. -/
def availHit (soup : Forest) : Option (String × String) :=
  availHitGo (docTextLower soup).toList availPhrases

/-- `infer_availability` (src/extractor.py 103-109). -/
def infer_availability (soup : Forest) : Option String := (availHit soup).map Prod.snd

/-! ## Selector application (src/extractor.py 112-123) -/

/-- Outcome of `soup.select_one(selector)`, an external CSS engine call:
it can raise (invalid/unsupported selector), find nothing, or return a
first matching element. -/
inductive SelOutcome where
  | err : SelOutcome
  | notFound : SelOutcome
  | found (tag : String) (attrs : List (String × String)) (children : Forest) : SelOutcome

/-- Per-field body of the `apply_selectors` loop: falsy selector short
circuit, then `select_one` under `try/except` — a raise or no match both
record `None`. -/
def selValue (ev : String → SelOutcome) (selector : String) : Option String :=
  if selector = "" then none
  else
    match ev selector with
    | .err => none
    | .notFound => none
    | .found _ _ c => some (get_text_strip c)

/-- `apply_selectors` (src/extractor.py 112-123): a dict with exactly the
mapping's fields, each bound to its selector's result. -/
def apply_selectors (ev : String → SelOutcome) (mapping : List (String × String)) :
    List (String × Option String) :=
  mapping.map (fun fs => (fs.1, selValue ev fs.2))

/-! ## Normalisation (src/extractor.py 126-149) -/

/-- The structured price sub-dict `{"raw": ..., "amount": ..., "currency": ...}`. -/
structure PriceObj where
  raw : Option String
  amount : Option Rat
  currency : Option String
deriving DecidableEq

/-- A value of the normalized record: the `title`/`availability` strings
(or `None`), the price sub-dict, or the timestamp string. -/
inductive FieldVal where
  | text (s : Option String) : FieldVal
  | price (p : PriceObj) : FieldVal
  | stamp (s : String) : FieldVal
deriving DecidableEq

/-- The `currency`/`amount` computation of `normalize_fields` 127-139:
both stay `None` unless the raw price is truthy; `currency` is group 1 of
the first `CURRENCY_RE` match, `amount` is `float` of the first
`NUMBER_RE` match with commas removed, `None` on parse failure. -/
def pricePair (price_raw : Option String) : Option String × Option Rat :=
  match price_raw with
  | some p =>
    if p = "" then (none, none)
    else
      ((CURRENCY_RE_search p.toList).map (fun r => String.mk r.2.1),
       match NUMBER_RE_search p.toList with
       | some r => pyFloat (stripCommas r.2)
       | none => none)
  | none => (none, none)

/-- `normalize_fields` (src/extractor.py 126-149): the returned dict has
exactly the keys `title`, `price`, `availability`,
`extraction_timestamp` — the code builds this literal dict. -/
def normalize_fields (raw : List (String × Option String)) (now : String) :
    List (String × FieldVal) :=
  [("title", .text (dget raw "title")),
   ("price", .price ⟨dget raw "price", (pricePair (dget raw "price")).2,
      (pricePair (dget raw "price")).1⟩),
   ("availability", .text (dget raw "availability")),
   ("extraction_timestamp", .stamp (now ++ "Z"))]

/-- `amount` of the record's price sub-dict. -/
def priceAmountOf (r : List (String × FieldVal)) : Option Rat :=
  match alookup "price" r with
  | some (.price p) => p.amount
  | _ => none

/-- `currency` of the record's price sub-dict. -/
def priceCurrencyOf (r : List (String × FieldVal)) : Option String :=
  match alookup "price" r with
  | some (.price p) => p.currency
  | _ => none

/-- The raw price string `normalize_fields` actually searches
(`""` when the field is absent/`None`; in that case the searches are never
reached). -/
def priceRawOf (raw : List (String × Option String)) : String :=
  (dget raw "price").getD ""

/-! ## The engine (src/extractor.py 152-168) -/

/-- `extract_from_html`: parse, apply selectors, backfill falsy fields
from the heuristics, normalize.  `parse` models `BeautifulSoup(html,
"lxml")` and `sel` models the document's CSS engine; both are abstract
deterministic functions. -/
def extract_from_html (parse : String → Forest) (sel : Forest → String → SelOutcome)
    (html : String) (mapping : List (String × String)) (now : String) :
    List (String × FieldVal) :=
  let soup := parse html
  let selected := apply_selectors (sel soup) mapping
  let s1 := if optTruthy (dget selected "title") then selected
            else dset "title" (infer_title soup) selected
  let s2 := if optTruthy (dget s1 "price") then s1
            else dset "price" (infer_price soup) s1
  let s3 := if optTruthy (dget s2 "availability") then s2
            else dset "availability" (infer_availability soup) s2
  normalize_fields s3 now

/-- Drop the timestamp entry of a record. -/
def eraseTs (r : List (String × FieldVal)) : List (String × FieldVal) :=
  r.filter (fun kv => !(kv.1 == "extraction_timestamp"))

/-! ## The fetcher (src/extractor.py 23-31) -/

/-- Outcome of one `requests.get`: a response (status, final URL after
redirects, body text) or a transport-level exception. -/
inductive HttpResult where
  | response (status : Nat) (finalUrl : String) (body : String) : HttpResult
  | netError (message : String) : HttpResult

/-- Result of a `fetch_html` call plus its observable effects: how many
GETs were issued and which sleeps were performed. -/
structure FetchTrace where
  result : Except String (String × String)
  attempts : Nat
  sleeps : List Nat

/-- `fetch_html` (src/extractor.py 23-31): a single `requests.get`
followed by `raise_for_status()` (which raises exactly for
400 ≤ status < 600; any other status, including nonstandard statuses
≥ 600, is returned as a success) — there is no retry loop, no
`retries`/`backoff` parameter, and no sleep.  `net n` is the outcome the
network would give the n-th GET of this call; only `net 0` is ever
consulted. -/
def fetch_html (net : Nat → HttpResult) : FetchTrace :=
  match net 0 with
  | .netError m => ⟨.error m, 1, []⟩
  | .response st u b =>
    if 400 ≤ st ∧ st < 600 then ⟨.error ("HTTP " ++ toString st), 1, []⟩
    else ⟨.ok (u, b), 1, []⟩

/-! ## The /extract boundary (src/main.py) -/

/-- `ExtractRequest` (src/main.py 9-13). -/
structure ExtractRequest where
  url : Option String
  html : Option String
  use_llm : Bool
  mapping : Option (List (String × String))

/-- The boundary's response shape: `{"status": "ok", "data": ...}` or
`{"status": "error", "message": ...}`. -/
inductive ApiResponse where
  | ok (data : List (String × FieldVal)) : ApiResponse
  | error (message : String) : ApiResponse

/-- Drop the timestamp entry inside an ok response. -/
def respErase : ApiResponse → ApiResponse
  | .ok d => .ok (eraseTs d)
  | .error m => .error m

/-- The `/extract` handler (src/main.py 16-27).  `fetch` models the
raising behaviour of `fetch_html` per URL (an `Except.error` is the
exception the `try` catches).  `oracle` models `llm_infer_selectors`
(src/extractor.py 191-259) being importable next to the handler: the
handler's body never consults it — main.py imports only `fetch_html` and
`extract_from_html` — and never reads `req.use_llm`. -/
def extractEndpoint (fetch : String → Except String (String × String))
    (parse : String → Forest) (sel : Forest → String → SelOutcome)
    (_oracle : String → List (String × String)) (now : String)
    (req : ExtractRequest) : ApiResponse :=
  match (if optTruthy req.url && !(optTruthy req.html)
         then (fetch (req.url.getD "")).map (fun r => some r.2)
         else Except.ok req.html) with
  | .error e => .error e
  | .ok h =>
    if optTruthy h then
      .ok (extract_from_html parse sel (h.getD "") (req.mapping.getD []) now)
    else .error "No HTML or URL provided"

/-! ## Concrete documents used by counterexamples and witnesses -/

/-- A document whose only priced element has the class token `discount`:
`<html><body><span class="discount">$5</span>no other figure here</body></html>`. -/
def c4doc : Forest :=
  .elemN "html" [] (
    .elemN "body" [] (
      .elemN "span" [("class", "discount")] (.textN "$5" .nil) (
      .textN "no other figure here" .nil)) .nil) .nil

/-- A `class="discount"` element holding `$5` placed in document order
before a `class="price"` element holding `$7`. -/
def c4doc2 : Forest :=
  .elemN "html" [] (
    .elemN "body" [] (
      .elemN "span" [("class", "discount")] (.textN "$5" .nil) (
      .elemN "span" [("class", "price")] (.textN "$7" .nil) .nil)) .nil) .nil

/-- A document whose og:title meta content is whitespace-only while its
`<title>` element text is `Plain`. -/
def c5doc : Forest :=
  .elemN "html" [] (
    .elemN "head" [] (
      .elemN "meta" [("property", "og:title"), ("content", "   ")] .nil (
      .elemN "title" [] (.textN "Plain" .nil) .nil)) .nil) .nil

/-- A document whose text contains the phrase "in stock". -/
def c7doc : Forest := .elemN "p" [] (.textN "In stock now" .nil) .nil

/-- A document containing none of the availability phrases. -/
def c7doc2 : Forest := .elemN "p" [] (.textN "nothing relevant here" .nil) .nil

/-- A selector evaluator on which every selector raises. -/
def evErr : String → SelOutcome := fun _ => .err

/-- A network on which every GET returns HTTP 500. -/
def net500 : Nat → HttpResult :=
  fun _ => .response 500 "http://example.com/item" "Internal Server Error"

/-- Recognized-currency-symbol occurrence strictly before index `j`
(both the spec's four symbols and the mojibake forms the code holds). -/
def existsSymbolBefore (s : List Char) (j : Nat) : Bool :=
  (List.range j).any (fun i =>
    ["$", "€", "£", "₹", "â‚¬", "Â£"].any (fun sym => decide (sym.toList <+: s.drop i)))

/-! ## Helper lemmas -/

lemma alookup_apply_selectors (ev : String → SelOutcome) (mapping : List (String × String))
    (f : String) :
    alookup f (apply_selectors ev mapping) = (alookup f mapping).map (selValue ev) := by
  induction mapping with
  | nil => rfl
  | cons kv t ih =>
    simp only [apply_selectors, List.map_cons, alookup] at *
    by_cases hk : kv.1 = f
    · simp [hk]
    · simp only [hk, if_false]
      exact ih

lemma eraseTs_normalize_eq (raw : List (String × Option String)) (n1 n2 : String) :
    eraseTs (normalize_fields raw n1) = eraseTs (normalize_fields raw n2) := by
  simp [normalize_fields, eraseTs]

lemma eraseTs_extract_eq (parse : String → Forest) (sel : Forest → String → SelOutcome)
    (html : String) (mapping : List (String × String)) (n1 n2 : String) :
    eraseTs (extract_from_html parse sel html mapping n1)
      = eraseTs (extract_from_html parse sel html mapping n2) :=
  eraseTs_normalize_eq _ _ _

lemma strFindIdx_some (pl t : List Char) (i : Nat) (h : strFindIdx pl t = some i) :
    pl <+: t.drop i := by
  induction t generalizing i with
  | nil =>
    rw [strFindIdx] at h
    split at h
    · next hp =>
      injection h with h
      subst h
      simp [hp]
    · cases h
  | cons c t' ih =>
    rw [strFindIdx] at h
    split at h
    · next hp =>
      injection h with h
      subst h
      simpa using hp
    · next hp =>
      obtain ⟨j, hj, rfl⟩ := Option.map_eq_some'.mp h
      simpa [List.drop_succ_cons] using ih j hj

lemma infixImpFindSome (pl t : List Char) (h : pl <:+: t) :
    (strFindIdx pl t).isSome = true := by
  induction t with
  | nil =>
    obtain ⟨a, b, hab⟩ := h
    simp only [List.append_eq_nil] at hab
    simp [strFindIdx, hab.1.2]
  | cons c t' ih =>
    rw [strFindIdx]
    by_cases hp : pl <+: (c :: t')
    · simp [hp]
    · obtain ⟨a, b, hab⟩ := h
      cases a with
      | nil => exact absurd ⟨b, by simpa using hab⟩ hp
      | cons a0 a' =>
        simp only [List.cons_append, List.append_assoc] at hab
        injection hab with h1 h2
        have ht : pl <:+: t' := ⟨a', b, by rw [List.append_assoc]; exact h2⟩
        simp only [hp, if_false]
        simpa using ih ht

lemma containsOfInfixFact (pl t : List Char) (h : pl <:+: t) : strContains t pl = true := by
  simpa [strContains] using infixImpFindSome pl t h

lemma prefixTakeLem {pl v : List Char} {n : Nat} (hlen : pl.length ≤ n) (h : pl <+: v) :
    pl <+: v.take n := by
  obtain ⟨r, rfl⟩ := h
  rw [List.take_append_eq_append_take, List.take_of_length_le hlen]
  exact ⟨_, rfl⟩

lemma windowContains (t pl : List Char) (i : Nat) (hlen : pl.length ≤ 50)
    (h : pl <+: t.drop i) :
    pl <:+: ((t.drop (i - 30)).take (i + 50 - (i - 30))) := by
  have hdd : (t.drop (i - 30)).drop (i - (i - 30)) = t.drop i := by
    rw [List.drop_drop]
    congr 1
    omega
  have hcount : i + 50 - (i - 30) = (i - (i - 30)) + 50 := by omega
  rw [hcount]
  rw [← hdd] at h
  have h1 : pl <+: ((t.drop (i - 30)).drop (i - (i - 30))).take 50 := prefixTakeLem hlen h
  rw [List.take_drop] at h1
  obtain ⟨r, hr⟩ := h1
  exact ⟨((t.drop (i - 30)).take ((i - (i - 30)) + 50)).take (i - (i - 30)), r, by
    rw [List.append_assoc, hr, List.take_append_drop]⟩

lemma infixRev {pl w : List Char} (h : pl <:+: w) : pl.reverse <:+: w.reverse := by
  obtain ⟨a, b, rfl⟩ := h
  exact ⟨b.reverse, a.reverse, by simp⟩

lemma infixDropWhile (pl : List Char) (hne : pl ≠ []) (hhd : pl.headI.isWhitespace = false) :
    ∀ w : List Char, pl <:+: w → pl <:+: w.dropWhile Char.isWhitespace := by
  intro w
  induction w with
  | nil =>
    intro h
    rw [List.infix_nil] at h
    exact absurd h hne
  | cons c w' ih =>
    intro h
    by_cases hc : c.isWhitespace = true
    · rw [List.dropWhile_cons, if_pos hc]
      apply ih
      obtain ⟨a, b, hab⟩ := h
      cases a with
      | nil =>
        cases pl with
        | nil => exact absurd rfl hne
        | cons p0 pt =>
          simp only [List.nil_append, List.cons_append] at hab
          injection hab with h1 h2
          rw [show (p0 :: pt).headI = p0 from rfl, h1] at hhd
          rw [hhd] at hc
          cases hc
      | cons a0 a' =>
        simp only [List.cons_append, List.append_assoc] at hab
        injection hab with h1 h2
        exact ⟨a', b, by rw [List.append_assoc]; exact h2⟩
    · rw [List.dropWhile_cons, if_neg hc]
      exact h

lemma pyStripLKeeps (pl w : List Char) (hne : pl ≠ []) (h3 : pl.headI.isWhitespace = false)
    (h4 : pl.reverse.headI.isWhitespace = false) (h : pl <:+: w) :
    pl <:+: pyStripL w := by
  have hrne : pl.reverse ≠ [] := by simpa [List.reverse_eq_nil_iff] using hne
  have s1 := infixDropWhile pl hne h3 w h
  have s2 := infixDropWhile pl.reverse hrne h4 _ (infixRev s1)
  have s3 := infixRev s2
  simpa [pyStripL] using s3

lemma lenDropWhileLe (p : Char → Bool) (l : List Char) :
    (l.dropWhile p).length ≤ l.length := by
  induction l with
  | nil => simp
  | cons c t ih =>
    rw [List.dropWhile_cons]
    by_cases hc : p c = true
    · rw [if_pos hc]
      simp only [List.length_cons]
      omega
    · rw [if_neg hc]

lemma pyStripLLenLe (w : List Char) : (pyStripL w).length ≤ w.length := by
  unfold pyStripL
  have h1 := lenDropWhileLe Char.isWhitespace w
  have h2 := lenDropWhileLe Char.isWhitespace (w.dropWhile Char.isWhitespace).reverse
  simp only [List.length_reverse] at *
  omega

lemma availWindowSound (text pl wl : List Char) (hne : pl ≠ []) (hlen : pl.length ≤ 50)
    (h3 : pl.headI.isWhitespace = false) (h4 : pl.reverse.headI.isWhitespace = false)
    (h : availWindow text pl = some wl) :
    strContains text pl = true ∧ wl.length ≤ 80 ∧ strContains wl pl = true := by
  unfold availWindow at h
  cases hf : strFindIdx pl text with
  | none => rw [hf] at h; cases h
  | some i =>
    rw [hf] at h
    injection h with h
    subst h
    have hp := strFindIdx_some pl text i hf
    have hwin := windowContains text pl i hlen hp
    have hkeep := pyStripLKeeps pl _ hne h3 h4 hwin
    refine ⟨by simp [strContains, hf], ?_, containsOfInfixFact _ _ hkeep⟩
    have hl1 := pyStripLLenLe ((text.drop (i - 30)).take (i + 50 - (i - 30)))
    have hl2 : ((text.drop (i - 30)).take (i + 50 - (i - 30))).length ≤ 80 := by
      rw [List.length_take]
      exact le_trans (Nat.min_le_left _ _) (by omega)
    omega

lemma availHitGoSound (text : List Char) (l : List String) (p w : String)
    (h : availHitGo text l = some (p, w)) :
    p ∈ l ∧ ∃ wl, availWindow text p.toList = some wl ∧ w = String.mk wl := by
  induction l with
  | nil => cases h
  | cons q qs ih =>
    rw [availHitGo] at h
    cases hw : availWindow text q.toList with
    | some wl =>
      rw [hw] at h
      simp only [Option.some.injEq, Prod.mk.injEq] at h
      obtain ⟨rfl, rfl⟩ := h
      exact ⟨List.mem_cons_self _ _, wl, hw, rfl⟩
    | none =>
      rw [hw] at h
      have := ih h
      exact ⟨List.mem_cons_of_mem _ this.1, this.2⟩

lemma availHitGoNone (text : List Char) (l : List String)
    (h : ∀ q ∈ l, strContains text q.toList = false) : availHitGo text l = none := by
  induction l with
  | nil => rfl
  | cons q qs ih =>
    rw [availHitGo]
    have hq := h q (List.mem_cons_self _ _)
    have hw : availWindow text q.toList = none := by
      unfold availWindow
      cases hf : strFindIdx q.toList text with
      | none => rfl
      | some i =>
        unfold strContains at hq
        rw [hf] at hq
        cases hq
    rw [hw]
    exact ih (fun r hr => h r (List.mem_cons_of_mem _ hr))

lemma searchIdxSome {α : Type} (f : List Char → Option α) (t : List Char) (i : Nat) (a : α)
    (h : searchIdx f t = some (i, a)) : f (t.drop i) = some a := by
  induction t generalizing i with
  | nil =>
    rw [searchIdx] at h
    obtain ⟨b, hb, hba⟩ := Option.map_eq_some'.mp h
    simp only [Prod.mk.injEq] at hba
    obtain ⟨rfl, rfl⟩ := hba
    simpa using hb
  | cons c t' ih =>
    rw [searchIdx] at h
    cases hf : f (c :: t') with
    | some b =>
      rw [hf] at h
      simp only [Option.some.injEq, Prod.mk.injEq] at h
      obtain ⟨rfl, rfl⟩ := h
      simpa using hf
    | none =>
      rw [hf] at h
      obtain ⟨⟨j, b⟩, hr, hra⟩ := Option.map_eq_some'.mp h
      simp only [Prod.mk.injEq] at hra
      obtain ⟨h1, rfl⟩ := hra
      subst h1
      simpa [List.drop_succ_cons] using ih j hr

lemma matchSymbolMem (u g1 rest : List Char) (h : matchSymbol u = some (g1, rest)) :
    g1 = ['$'] ∨ g1 = ['â', '‚', '¬'] ∨ g1 = ['Â', '£'] ∨ g1 = ['₹'] := by
  unfold matchSymbol at h
  split_ifs at h <;> simp_all

lemma currMatchAtSym (u g1 g0 : List Char) (h : currMatchAt u = some (g1, g0)) :
    g1 = ['$'] ∨ g1 = ['â', '‚', '¬'] ∨ g1 = ['Â', '£'] ∨ g1 = ['₹'] := by
  unfold currMatchAt at h
  cases hm : matchSymbol u with
  | none => rw [hm] at h; cases h
  | some sr =>
    rw [hm] at h
    dsimp only at h
    cases hn : numTailMatch (wsSplit sr.2).2 with
    | none => rw [hn] at h; cases h
    | some tail =>
      rw [hn] at h
      simp only [Option.some.injEq, Prod.mk.injEq] at h
      obtain ⟨rfl, -⟩ := h
      exact matchSymbolMem u sr.1 sr.2 (by rw [hm])

lemma length_mk (l : List Char) : (String.mk l).length = l.length := rfl

/-! ## Claim theorems -/

/-- C1: the claim says every normalized record contains a `specs` field
(empty mapping when nothing was mined).  The code has no specification
mining at all and `normalize_fields` builds a dict with exactly the keys
`title`, `price`, `availability`, `extraction_timestamp`: no record ever
carries a `specs` key. -/
theorem c1_no_specs_field (parse : String → Forest) (sel : Forest → String → SelOutcome)
    (html : String) (mapping : List (String × String)) (now : String)
    (raw : List (String × Option String)) :
    (normalize_fields raw now).map Prod.fst
        = ["title", "price", "availability", "extraction_timestamp"] ∧
    ((extract_from_html parse sel html mapping now).map Prod.fst).contains "specs" = false :=
  ⟨rfl, rfl⟩

/-- C2 counterexample: against a network that answers HTTP 500 to every
GET, `fetch_html` makes exactly one attempt (not 3) and performs no sleep
at all — there is no retry loop, no `retries` parameter and no backoff in
the code. -/
theorem c2_counterexample :
    (fetch_html net500).attempts = 1 ∧ ((fetch_html net500).attempts == 3) = false ∧
    (fetch_html net500).sleeps = [] :=
  ⟨rfl, rfl, rfl⟩

/-- C2 (amended): `fetch_html` issues exactly one GET and never sleeps;
a connection error surfaces the transport error unchanged, a response
with status in 400-599 (`raise_for_status`) surfaces an HTTP error, and
any other response — including nonstandard statuses ≥ 600 — is returned
as a `(finalUrl, body)` success; no partial result accompanies an
error. -/
theorem c2_single_attempt (net : Nat → HttpResult) :
    (fetch_html net).attempts = 1 ∧ (fetch_html net).sleeps = [] ∧
    (∀ m, net 0 = .netError m → (fetch_html net).result = .error m) ∧
    (∀ st u b, net 0 = .response st u b → 400 ≤ st → st < 600 →
      (fetch_html net).result = .error ("HTTP " ++ toString st)) ∧
    (∀ st u b, net 0 = .response st u b → (st < 400 ∨ 600 ≤ st) →
      (fetch_html net).result = .ok (u, b)) := by
  refine ⟨?_, ?_, ?_, ?_, ?_⟩
  · unfold fetch_html
    cases net 0 with
    | netError m => rfl
    | response st u b =>
      dsimp only
      by_cases hst : 400 ≤ st ∧ st < 600
      · rw [if_pos hst]
      · rw [if_neg hst]
  · unfold fetch_html
    cases net 0 with
    | netError m => rfl
    | response st u b =>
      dsimp only
      by_cases hst : 400 ≤ st ∧ st < 600
      · rw [if_pos hst]
      · rw [if_neg hst]
  · intro m hm
    unfold fetch_html
    rw [hm]
  · intro st u b hn h1 h2
    unfold fetch_html
    rw [hn]
    dsimp only
    rw [if_pos ⟨h1, h2⟩]
  · intro st u b hn hor
    unfold fetch_html
    rw [hn]
    dsimp only
    rw [if_neg (by omega)]

/-- C2 witness: the single-attempt theorem applied to the all-500
network, and its success conjunct applied to a network answering the
nonstandard status 999 (which `raise_for_status` does not raise on). -/
theorem c2_single_attempt_witness :
    (fetch_html net500).attempts = 1 ∧
    (fetch_html net500).result = .error ("HTTP " ++ toString 500) ∧
    (fetch_html (fun _ => .response 999 "http://example.com/item" "botwall")).result
      = .ok ("http://example.com/item", "botwall") :=
  ⟨(c2_single_attempt net500).1,
   (c2_single_attempt net500).2.2.2.1 500 "http://example.com/item" "Internal Server Error"
     rfl (by omega) (by omega),
   (c2_single_attempt (fun _ => .response 999 "http://example.com/item" "botwall")).2.2.2.2
     999 "http://example.com/item" "botwall" rfl (by omega)⟩

/-- C3: the claim says the currency pattern matches texts built from each
of the four symbols `$`, `€`, `£`, `₹`.  The compiled pattern holds the
mojibake byte sequences `â‚¬` and `Â£` instead of `€` and `£`, so texts
with the real Euro or Pound sign never match, while the two mojibake
sequences do; `$` and `₹` work as specified. -/
theorem c3_currency_symbols_mojibake :
    CURRENCY_RE_search ("€99" : String).toList = none ∧
    CURRENCY_RE_search ("£99" : String).toList = none ∧
    CURRENCY_RE_search ("€ 1,234.56" : String).toList = none ∧
    (CURRENCY_RE_search ("$99" : String).toList).isSome = true ∧
    (CURRENCY_RE_search ("₹99" : String).toList).isSome = true ∧
    (CURRENCY_RE_search ("$ 1,234.56" : String).toList).isSome = true ∧
    (CURRENCY_RE_search ("₹ 7.50" : String).toList).isSome = true ∧
    (CURRENCY_RE_search ("â‚¬99" : String).toList).isSome = true ∧
    (CURRENCY_RE_search ("Â£99" : String).toList).isSome = true := by decide

/-- C4 counterexample: `discount` is not in the code's keyword list, so
the keyword scan does not fire on a `class="discount"` element: with a
`discount` element holding `$5` placed before a `price` element holding
`$7`, `infer_price` returns `$7`, not the `$5` the claimed keyword set
would select first in document order. -/
theorem c4_counterexample :
    has_price_keyword "discount" = false ∧
    infer_price c4doc2 = some "$7" ∧ (infer_price c4doc2 == some "$5") = false := by decide

/-- C4 (amended): the keyword set is exactly {price, amount, cost, sale,
our-price} — `discount` is not a keyword — matched case-insensitively as
substrings of the class string (then the id); for a document whose only
priced element has class token `discount`, both keyword passes miss and
the element's currency match is still returned, via the whole-document
fallback. -/
theorem c4_keyword_set_and_fallback :
    has_price_keyword "PRICE" = true ∧ has_price_keyword "Amount" = true ∧
    has_price_keyword "cost" = true ∧ has_price_keyword "SALE-tag" = true ∧
    has_price_keyword "our-price" = true ∧ has_price_keyword "OUR-PRICE" = true ∧
    has_price_keyword "discount" = false ∧ has_price_keyword "big-Discount-tag" = false ∧
    scanClassPass c4doc = none ∧ scanIdPass c4doc = none ∧
    infer_price c4doc = some "$5" := by decide

/-- C5 counterexample: a document whose og:title content is whitespace-only
and whose `<title>` text is `Plain`; `infer_title` returns the empty
string, not `Plain` — the meta candidate is not skipped after trimming. -/
theorem c5_counterexample :
    ogTitleContent c5doc = some "   " ∧
    (findFirstF (fun t _ => t == "title") c5doc).map (fun e => pyStrip (textOf e.2.2))
        = some "Plain" ∧
    infer_title c5doc = some "" ∧ (infer_title c5doc == some "Plain") = false := by decide

/-- C5 (amended): the meta-tag candidates are guarded by truthiness of the
raw content, not of its trim: whenever the og:title meta's content is a
non-empty string, `infer_title` returns that content stripped — even when
the strip is the empty string, in which case the later rules are never
consulted. -/
theorem c5_og_content_truthy_wins (soup : Forest) (c : String)
    (h : ogTitleContent soup = some c) (hc : c ≠ "") :
    infer_title soup = some (pyStrip c) := by
  unfold ogTitleContent at h
  unfold infer_title metaContent
  cases hog : ogTitleTag soup with
  | none => rw [hog] at h; cases h
  | some e =>
    rw [hog] at h
    dsimp only at h
    dsimp only
    rw [h]
    dsimp only
    rw [if_neg hc]

/-- C5 witness: on the concrete document the amended rule yields the empty
string title. -/
theorem c5_og_content_truthy_wins_witness : infer_title c5doc = some "" := by
  have h := c5_og_content_truthy_wins c5doc "   " (by decide) (by decide)
  exact h.trans (by decide)

/-- C6: for every selector evaluator (including one on which every
selector raises) the applier returns a dict with exactly the mapping's
fields — it never propagates the failure — and a field evaluates to
absent whenever its selector is empty, raises, or matches nothing; fields
outside the mapping are absent. -/
theorem c6_selector_failure_is_absence (ev : String → SelOutcome)
    (mapping : List (String × String)) (f sel : String) :
    ((apply_selectors ev mapping).map Prod.fst = mapping.map Prod.fst) ∧
    (alookup f mapping = some sel → (sel = "" ∨ ev sel = .err ∨ ev sel = .notFound) →
      dget (apply_selectors ev mapping) f = none) ∧
    (alookup f mapping = none → dget (apply_selectors ev mapping) f = none) := by
  refine ⟨?_, ?_, ?_⟩
  · unfold apply_selectors
    rw [List.map_map]
    rfl
  · intro hm hfail
    rw [dget, alookup_apply_selectors, hm]
    rcases hfail with h | h | h
    · simp [selValue, h]
    · by_cases hs : sel = "" <;> simp [selValue, hs, h]
    · by_cases hs : sel = "" <;> simp [selValue, hs, h]
  · intro hm
    rw [dget, alookup_apply_selectors, hm]
    rfl

/-- C6 witness: with an evaluator that always raises, a mapped field and
an unmapped field are both absent. -/
theorem c6_selector_failure_is_absence_witness :
    dget (apply_selectors evErr [("title", "h1..bad")]) "title" = none ∧
    dget (apply_selectors evErr [("title", "h1..bad")]) "price" = none :=
  ⟨(c6_selector_failure_is_absence evErr [("title", "h1..bad")] "title" "h1..bad").2.1 rfl
     (Or.inr (Or.inl rfl)),
   (c6_selector_failure_is_absence evErr [("title", "h1..bad")] "price" "x").2.2 rfl⟩

/-- C7: whenever `infer_availability` returns a window, a phrase of the
fixed list occurs in the lower-cased document text, the window's length is
at most that phrase's length plus 80, and the window still contains the
phrase after trimming; when no phrase occurs, the result is absent. -/
theorem c7_availability_window (soup : Forest) (p w : String) :
    (availHit soup = some (p, w) →
      p ∈ availPhrases ∧
      strContains (docTextLower soup).toList p.toList = true ∧
      w.length ≤ p.length + 80 ∧
      strContains w.toList p.toList = true) ∧
    ((availPhrases.all fun q => !strContains (docTextLower soup).toList q.toList) = true →
      infer_availability soup = none) := by
  constructor
  · intro h
    obtain ⟨hmem, wl, hwin, rfl⟩ := availHitGoSound _ _ _ _ h
    have hm := hmem
    simp only [availPhrases, List.mem_cons, List.not_mem_nil, or_false] at hm
    have hfacts : p.toList ≠ [] ∧ p.toList.length ≤ 50 ∧
        p.toList.headI.isWhitespace = false ∧ p.toList.reverse.headI.isWhitespace = false := by
      rcases hm with rfl | rfl | rfl | rfl | rfl <;>
        exact ⟨by decide, by decide, by decide, by decide⟩
    obtain ⟨f1, f2, f3, f4⟩ := hfacts
    obtain ⟨hc1, hc2, hc3⟩ := availWindowSound _ _ _ f1 f2 f3 f4 hwin
    refine ⟨hmem, hc1, ?_, hc3⟩
    rw [length_mk]
    omega
  · intro hall
    have hnone : availHitGo (docTextLower soup).toList availPhrases = none :=
      availHitGoNone _ _ (fun q hq => by
        have := List.all_eq_true.mp hall q hq
        simpa using this)
    unfold infer_availability availHit
    rw [hnone]
    rfl

/-- C7 witness: on a document saying "In stock now" the hit is the phrase
"in stock" with window "in stock now"; on a document with no phrase the
result is absent. -/
theorem c7_availability_window_witness :
    (("in stock" : String) ∈ availPhrases ∧
      strContains (docTextLower c7doc).toList ("in stock" : String).toList = true ∧
      ("in stock now" : String).length ≤ ("in stock" : String).length + 80 ∧
      strContains ("in stock now" : String).toList ("in stock" : String).toList = true) ∧
    infer_availability c7doc2 = none :=
  ⟨(c7_availability_window c7doc "in stock" "in stock now").1 (by decide),
   (c7_availability_window c7doc2 "x" "y").2 (by decide)⟩

/-- C8 counterexample: on raw price text `12 $34` the normalizer yields
`amount = 12` (parsed from the leftmost numeric run, which starts at index
0) together with `currency = $`, although no recognized symbol occurs
before that run — the claimed invariant "currency is present only if a
recognized symbol preceded the amount" fails. -/
theorem c8_counterexample :
    priceCurrencyOf (normalize_fields [("price", some "12 $34")] "T") = some "$" ∧
    priceAmountOf (normalize_fields [("price", some "12 $34")] "T") = some 12 ∧
    NUMBER_RE_search ("12 $34" : String).toList = some (0, ['1', '2']) ∧
    existsSymbolBefore ("12 $34" : String).toList 0 = false := by decide

/-- C8 (amended): `amount` is present only if `NUMBER_RE` found a numeric
substring in the raw price text, `currency` is present only if a
`CURRENCY_RE` match occurs there — a recognized symbol (one of the four
the compiled pattern holds) immediately followed by an optional space and
a digit run, not necessarily the run parsed as `amount` — and a numeric
parse failure leaves `amount` absent without raising. -/
theorem c8_price_normalization_invariant (raw : List (String × Option String)) (now : String) :
    ((priceAmountOf (normalize_fields raw now)).isSome = true →
      (NUMBER_RE_search (priceRawOf raw).toList).isSome = true) ∧
    (∀ c, priceCurrencyOf (normalize_fields raw now) = some c →
      (CURRENCY_RE_search (priceRawOf raw).toList).map (fun r => String.mk r.2.1) = some c ∧
      (c = "$" ∨ c = "â‚¬" ∨ c = "Â£" ∨ c = "₹")) ∧
    (∀ i g, NUMBER_RE_search (priceRawOf raw).toList = some (i, g) →
      pyFloat (stripCommas g) = none →
      priceAmountOf (normalize_fields raw now) = none) := by
  have hamt : priceAmountOf (normalize_fields raw now) = (pricePair (dget raw "price")).2 := rfl
  have hcur : priceCurrencyOf (normalize_fields raw now) = (pricePair (dget raw "price")).1 := rfl
  cases hp : dget raw "price" with
  | none =>
    rw [hp] at hamt hcur
    refine ⟨?_, ?_, ?_⟩
    · intro hs
      rw [hamt] at hs
      cases hs
    · intro c hc
      rw [hcur] at hc
      cases hc
    · intro i g _ _
      rw [hamt]
      rfl
  | some p =>
    rw [hp] at hamt hcur
    have hpr : priceRawOf raw = p := by rw [priceRawOf, hp]; rfl
    by_cases hpe : p = ""
    · subst hpe
      rw [show pricePair (some "") = (none, none) from rfl] at hamt hcur
      refine ⟨?_, ?_, ?_⟩
      · intro hs
        rw [hamt] at hs
        cases hs
      · intro c hc
        rw [hcur] at hc
        cases hc
      · intro i g _ _
        rw [hamt]
    · rw [show pricePair (some p)
          = ((CURRENCY_RE_search p.toList).map (fun r => String.mk r.2.1),
             match NUMBER_RE_search p.toList with
             | some r => pyFloat (stripCommas r.2)
             | none => none) by rw [pricePair, if_neg hpe]] at hamt hcur
      refine ⟨?_, ?_, ?_⟩
      · intro hs
        rw [hamt] at hs
        rw [hpr]
        cases hn : NUMBER_RE_search p.toList with
        | none => rw [hn] at hs; cases hs
        | some r => rfl
      · intro c hc
        rw [hcur] at hc
        dsimp only at hc
        refine ⟨by rw [hpr]; exact hc, ?_⟩
        obtain ⟨⟨i, g1, g0⟩, hr, hrc⟩ := Option.map_eq_some'.mp hc
        have hcm := searchIdxSome currMatchAt p.toList i (g1, g0) hr
        rcases currMatchAtSym _ _ _ hcm with h1 | h1 | h1 | h1
        · exact Or.inl (by rw [← hrc]; dsimp only; rw [h1])
        · exact Or.inr (Or.inl (by rw [← hrc]; dsimp only; rw [h1]))
        · exact Or.inr (Or.inr (Or.inl (by rw [← hrc]; dsimp only; rw [h1])))
        · exact Or.inr (Or.inr (Or.inr (by rw [← hrc]; dsimp only; rw [h1])))
      · intro i g hn hfail
        rw [hpr] at hn
        rw [hamt]
        dsimp only
        rw [hn]
        exact hfail

/-- C8 witness: on raw price `$5` the amount and currency invariants are
exercised on the success side; on raw price `{1}` the numeric run `{1`
fails `float` parsing and the amount is absent. -/
theorem c8_price_normalization_invariant_witness :
    (NUMBER_RE_search (priceRawOf [("price", some "$5")]).toList).isSome = true ∧
    ((CURRENCY_RE_search (priceRawOf [("price", some "$5")]).toList).map
        (fun r => String.mk r.2.1) = some "$" ∧
      (("$" : String) = "$" ∨ ("$" : String) = "â‚¬" ∨ ("$" : String) = "Â£" ∨
        ("$" : String) = "₹")) ∧
    priceAmountOf (normalize_fields [("price", some "{1}")] "T") = none :=
  ⟨(c8_price_normalization_invariant [("price", some "$5")] "T").1 (by decide),
   (c8_price_normalization_invariant [("price", some "$5")] "T").2.1 "$" (by decide),
   (c8_price_normalization_invariant [("price", some "{1}")] "T").2.2 0 ['{', '1']
     (by decide) (by decide)⟩

/-- C9: the engine is deterministic in everything but the timestamp — two
runs on the same parsed document, selector engine, HTML and mapping agree
on every field once `extraction_timestamp` is ignored, whatever instants
the two runs happen at. -/
theorem c9_engine_deterministic (parse : String → Forest) (sel : Forest → String → SelOutcome)
    (html : String) (mapping : List (String × String)) (now1 now2 : String) :
    eraseTs (extract_from_html parse sel html mapping now1)
      = eraseTs (extract_from_html parse sel html mapping now2) :=
  eraseTs_extract_eq parse sel html mapping now1 now2

/-- C10: the `/extract` handler's response is independent of the `use_llm`
flag and of the selector-inference oracle (which it never invokes — the
handler imports only the fetcher and the engine): two requests identical
except for `use_llm`, served at any two instants and with any two oracles,
give the same response up to the timestamp field. -/
theorem c10_use_llm_independent (fetch : String → Except String (String × String))
    (parse : String → Forest) (sel : Forest → String → SelOutcome)
    (o1 o2 : String → List (String × String)) (now1 now2 : String)
    (url html : Option String) (mapping : Option (List (String × String))) (b1 b2 : Bool) :
    respErase (extractEndpoint fetch parse sel o1 now1 ⟨url, html, b1, mapping⟩)
      = respErase (extractEndpoint fetch parse sel o2 now2 ⟨url, html, b2, mapping⟩) := by
  unfold extractEndpoint
  dsimp only
  cases hs : (if optTruthy url && !(optTruthy html)
      then (fetch (url.getD "")).map (fun r => some r.2)
      else Except.ok html) with
  | error e => rfl
  | ok h =>
    dsimp only
    by_cases ht : optTruthy h = true
    · rw [if_pos ht, if_pos ht]
      unfold respErase
      exact congrArg ApiResponse.ok (eraseTs_extract_eq _ _ _ _ _ _)
    · rw [if_neg ht, if_neg ht]
